import Mathlib

/-!
Shallow embedding of the splat2mc converter pipeline
(src/splat2mc/converter.py): PLY splat decoding, spatial
normalization, downsampling, and mcfunction emission.

Python floats are modelled as exact numbers: the decoder, which applies
the transcendental functions exp and the logistic sigmoid, is modelled
over ℝ; the purely arithmetical pipeline stages (normalizer, selector,
emitter) are modelled over ℚ so that they evaluate. Randomness in the
`random` downsampling path (np.random.choice) is modelled by passing the
drawn index list explicitly. The Python `sorted` builtin is a stable
sort; it is modelled by the stable insertion sort of Mathlib.
-/

/-- The `GaussianSplat` dataclass of converter.py: position, color in
the unit interval per channel, opacity in the unit interval, and an
averaged isotropic scale. -/
structure GaussianSplat (α : Type) where
  x : α
  y : α
  z : α
  r : α
  g : α
  b : α
  opacity : α
  scale : α
deriving DecidableEq

/-- A zero splat, used as the (never reached) default for list indexing. -/
def splat0 : GaussianSplat ℚ := ⟨0, 0, 0, 0, 0, 0, 0, 0⟩

/-- One row of the vertex element of a PLY file, as read by load_ply:
positions are required; the spherical-harmonic DC color fields
(f_dc_0, f_dc_1, f_dc_2), the 8-bit color fields (red, green, blue),
the logit opacity field and the three log-scale fields
(scale_0, scale_1, scale_2) are each present or absent. -/
structure RawVertex where
  x : ℝ
  y : ℝ
  z : ℝ
  f_dc : Option (ℝ × ℝ × ℝ)
  rgb : Option (ℝ × ℝ × ℝ)
  opacity : Option ℝ
  scales : Option (ℝ × ℝ × ℝ)

/-- Per-row decoding performed by load_ply (converter.py lines 43-94):
color from the SH DC term (0.5 + dc * C0, C0 = 0.28209479177387814) when
present, else red/green/blue divided by 255, else white; all channels
then clipped to the unit interval; opacity through the sigmoid when the
logit field is present, else 1; scale as the mean of the exponentials of
the three log-scale fields when present, else 0.01. -/
noncomputable def decodeVertex (v : RawVertex) : GaussianSplat ℝ :=
  let C0 : ℝ := 0.28209479177387814
  let rgb0 : ℝ × ℝ × ℝ :=
    match v.f_dc with
    | some d => (0.5 + d.1 * C0, 0.5 + d.2.1 * C0, 0.5 + d.2.2 * C0)
    | none =>
      match v.rgb with
      | some c => (c.1 / 255, c.2.1 / 255, c.2.2 / 255)
      | none => (1, 1, 1)
  let op : ℝ :=
    match v.opacity with
    | some t => 1 / (1 + Real.exp (-t))
    | none => 1
  let sc : ℝ :=
    match v.scales with
    | some t => (Real.exp t.1 + Real.exp t.2.1 + Real.exp t.2.2) / 3
    | none => 0.01
  { x := v.x, y := v.y, z := v.z,
    r := max 0 (min 1 rgb0.1), g := max 0 (min 1 rgb0.2.1), b := max 0 (min 1 rgb0.2.2),
    opacity := op, scale := sc }

/-- load_ply, as a pure map over the decoded vertex rows. -/
noncomputable def load_ply (rows : List RawVertex) : List (GaussianSplat ℝ) :=
  rows.map decodeVertex

/-- Minimum of a nonempty collection given as head plus tail, Python min. -/
def minList (a : ℚ) (l : List ℚ) : ℚ := l.foldr min a

/-- Maximum of a nonempty collection given as head plus tail, Python max. -/
def maxList (a : ℚ) (l : List ℚ) : ℚ := l.foldr max a

/-- Per-axis minimum over a splat list (0 for the empty list, on which
normalize_splats never computes bounds). -/
def boundsMin (l : List (GaussianSplat ℚ)) (f : GaussianSplat ℚ → ℚ) : ℚ :=
  match l with
  | [] => 0
  | s :: t => minList (f s) (t.map f)

/-- Per-axis maximum over a splat list. -/
def boundsMax (l : List (GaussianSplat ℚ)) (f : GaussianSplat ℚ → ℚ) : ℚ :=
  match l with
  | [] => 0
  | s :: t => maxList (f s) (t.map f)

/-- Axis range with the Python `or 1` fallback: `max_x - min_x or 1`
yields 1 exactly when the difference is zero. -/
def rangeOr1 (l : List (GaussianSplat ℚ)) (f : GaussianSplat ℚ → ℚ) : ℚ :=
  if boundsMax l f - boundsMin l f = 0 then 1 else boundsMax l f - boundsMin l f

/-- scale_factor of normalize_splats: target_size / max(range_x, range_y, range_z). -/
def scale_factor (l : List (GaussianSplat ℚ)) (target_size : ℚ) : ℚ :=
  target_size /
    max (rangeOr1 l (fun s => s.x)) (max (rangeOr1 l (fun s => s.y)) (rangeOr1 l (fun s => s.z)))

/-- Center offset of normalize_splats: the axis midpoint when centering
is on, 0 otherwise. -/
def center_axis (l : List (GaussianSplat ℚ)) (f : GaussianSplat ℚ → ℚ) (center : Bool) : ℚ :=
  if center then (boundsMin l f + boundsMax l f) / 2 else 0

/-- normalize_splats (converter.py lines 99-152): empty input is
returned unchanged; otherwise every position coordinate becomes
(value - center) * scale_factor and scale is multiplied by scale_factor,
with color and opacity passed through. -/
def normalize_splats (splats : List (GaussianSplat ℚ)) (target_size : ℚ) (center : Bool) :
    List (GaussianSplat ℚ) :=
  match splats with
  | [] => []
  | _ :: _ =>
    let sf := scale_factor splats target_size
    let cx := center_axis splats (fun s => s.x) center
    let cy := center_axis splats (fun s => s.y) center
    let cz := center_axis splats (fun s => s.z) center
    splats.map fun s =>
      { x := (s.x - cx) * sf, y := (s.y - cy) * sf, z := (s.z - cz) * sf,
        r := s.r, g := s.g, b := s.b, opacity := s.opacity, scale := s.scale * sf }

/-- The comparison realized by `sorted(splats, key=lambda s: s.opacity,
reverse=True)`: a sorts no later than b when its opacity is at least
b's. -/
def rge (a b : GaussianSplat ℚ) : Prop := b.opacity ≤ a.opacity

instance : DecidableRel rge := fun a b =>
  inferInstanceAs (Decidable (b.opacity ≤ a.opacity))

/-- sorted_splats of downsample_splats: the stable descending-by-opacity
sort of the input (Python sorted with reverse=True is stable). -/
def sorted_splats (splats : List (GaussianSplat ℚ)) : List (GaussianSplat ℚ) :=
  List.insertionSort rge splats

/-- Specification order on input positions: index i precedes index j
when splat i has strictly larger opacity, or equal opacity and i comes
no later in the input. -/
def lexRank (l : List (GaussianSplat ℚ)) (i j : ℕ) : Prop :=
  (l.getD j splat0).opacity < (l.getD i splat0).opacity ∨
    ((l.getD i splat0).opacity = (l.getD j splat0).opacity ∧ i ≤ j)

instance (l : List (GaussianSplat ℚ)) : DecidableRel (lexRank l) := fun i j =>
  inferInstanceAs
    (Decidable ((l.getD j splat0).opacity < (l.getD i splat0).opacity ∨
      ((l.getD i splat0).opacity = (l.getD j splat0).opacity ∧ i ≤ j)))

instance (l : List (GaussianSplat ℚ)) : IsTotal ℕ (lexRank l) := by
  constructor
  intro i j
  rcases lt_trichotomy (l.getD i splat0).opacity (l.getD j splat0).opacity with h | h | h
  · exact Or.inr (Or.inl h)
  · rcases Nat.le_total i j with hij | hij
    · exact Or.inl (Or.inr ⟨h, hij⟩)
    · exact Or.inr (Or.inr ⟨h.symm, hij⟩)
  · exact Or.inl (Or.inl h)

instance (l : List (GaussianSplat ℚ)) : IsTrans ℕ (lexRank l) := by
  constructor
  intro a b c hab hbc
  rcases hab with h1 | ⟨h1, h2⟩ <;> rcases hbc with h3 | ⟨h3, h4⟩
  · exact Or.inl (h3.trans h1)
  · exact Or.inl (h3 ▸ h1)
  · exact Or.inl (by rw [h1]; exact h3)
  · exact Or.inr ⟨h1.trans h3, h2.trans h4⟩

/-- The input positions sorted into the specification order: highest
opacity first, ties in input order. -/
def rankedIndices (l : List (GaussianSplat ℚ)) : List ℕ :=
  List.insertionSort (lexRank l) (List.range l.length)

/-- Python list slicing `l[:m]` for an arbitrary integer bound: a
nonnegative bound takes that many elements, a negative bound drops that
many from the end (clamped at zero). -/
def listSliceTo {α : Type} (m : ℤ) (l : List α) : List α :=
  if 0 ≤ m then l.take m.toNat else l.take ((l.length : ℤ) + m).toNat

/-- Failure taxonomy named by the design document. The converter source
never raises any of these. -/
inductive ConvError where
  | invalidParameter
deriving DecidableEq

/-- downsample_splats (converter.py lines 155-177): identity when the
input already fits the budget, otherwise the opacity method keeps the
top slice of the stable descending sort and every other method string
takes the random-index path. The function body performs no validation
and contains no raise, so the opacity path always returns a value.
Because the index draw of np.random.choice is passed in explicitly,
failures arising inside np.random.choice itself (its ValueError when
the population is empty and the sample size nonzero, reachable here
only with an empty input and a negative maximum count) are outside
this model: the random branch below is the behavior of the successful
draw. -/
def downsample_splats (splats : List (GaussianSplat ℚ)) (max_count : ℤ) (method : String)
    (rand : List ℕ) : Except ConvError (List (GaussianSplat ℚ)) :=
  if (splats.length : ℤ) ≤ max_count then .ok splats
  else if method = "opacity" then .ok (listSliceTo max_count (sorted_splats splats))
  else .ok (rand.map (fun i => splats.getD i splat0))

/-- Clamp of a color channel in generate_mcfunction: max(0, min(1, v)). -/
def clamp01 (v : ℚ) : ℚ := max 0 (min 1 v)

/-- particle_scale of generate_mcfunction: max(0.1, min(4.0, scale * 50)). -/
def particle_scale (s : GaussianSplat ℚ) : ℚ := max (1 / 10) (min 4 (s.scale * 50))

/-- Modelled from the spec wording: clamp(x, lo, hi) saturates x at the
two bounds. Used to compare the source expression against the spec. -/
def clampSpec (x lo hi : ℚ) : ℚ := if x < lo then lo else if hi < x then hi else x

/-- Round a rational to the nearest integer, ties to even, as decimal
formatting of an exactly-representable value does. -/
def roundHalfEven (q : ℚ) : ℤ :=
  let n := q.floor
  if 1 / 2 < q - n then n + 1
  else if q - n < 1 / 2 then n
  else if n % 2 = 0 then n else n + 1

/-- Exactly d decimal digits of the fractional payload m (zero padded on
the left), most significant first. -/
def fracDigits : ℕ → ℕ → List Char
  | 0, _ => []
  | d + 1, m => fracDigits d (m / 10) ++ [Nat.digitChar (m % 10)]

/-- Decimal digits of n, most significant first, with explicit fuel. -/
def natChars : ℕ → ℕ → List Char
  | 0, _ => []
  | _ + 1, 0 => []
  | fuel + 1, n + 1 => natChars fuel ((n + 1) / 10) ++ [Nat.digitChar ((n + 1) % 10)]

/-- Decimal rendering of a natural number. -/
def intRender (n : ℕ) : String :=
  if n = 0 then "0" else String.mk (natChars n n)

/-- Fixed-point rendering of a rational with exactly d digits after the
point, as the Python format specifier .df renders the value: sign, then
the integer part, a point, and d fractional digits. -/
def fmtFixed (d : ℕ) (q : ℚ) : String :=
  let m := roundHalfEven (q * (10 : ℚ) ^ d)
  (if q < 0 then "-" else "") ++ intRender (m.natAbs / 10 ^ d) ++ "." ++
    String.mk (fracDigits d (m.natAbs % 10 ^ d))

/-- Position field of the particle command: tilde-prefixed offsets in
relative mode, plain coordinates in absolute mode, each coordinate with
3 decimal digits. -/
def posStr (relative : Bool) (s : GaussianSplat ℚ) : String :=
  if relative then
    "~" ++ fmtFixed 3 s.x ++ " ~" ++ fmtFixed 3 s.y ++ " ~" ++ fmtFixed 3 s.z
  else
    fmtFixed 3 s.x ++ " " ++ fmtFixed 3 s.y ++ " " ++ fmtFixed 3 s.z

/-- One particle command line of generate_mcfunction (converter.py line
217): fixed dust particle token, clamped colors with 3 decimals, scale
with 2 decimals, the position, three zero velocity components, spread 1
and the force display token. -/
def particleLine (relative : Bool) (s : GaussianSplat ℚ) : String :=
  "particle dust\x7bcolor:[" ++ fmtFixed 3 (clamp01 s.r) ++ "," ++ fmtFixed 3 (clamp01 s.g) ++
    "," ++ fmtFixed 3 (clamp01 s.b) ++ "],scale:" ++ fmtFixed 2 (particle_scale s) ++ "\x7d " ++
    posStr relative s ++ " 0 0 0 0 1 force"

/-- The per-splat loop of generate_mcfunction: a splat with opacity
below min_opacity is skipped, every other splat contributes one line. -/
def bodyLines (splats : List (GaussianSplat ℚ)) (relative : Bool) (min_opacity : ℚ) :
    List String :=
  splats.filterMap fun s =>
    if s.opacity < min_opacity then none else some (particleLine relative s)

/-- generate_mcfunction (converter.py lines 180-220): two header
comment lines and a blank separator, then the particle command lines,
joined with newlines. -/
def generate_mcfunction (splats : List (GaussianSplat ℚ)) (relative : Bool) (min_opacity : ℚ) :
    String :=
  String.intercalate "\n"
    (["# Generated by splat2mc", "# " ++ toString splats.length ++ " Gaussian splats", ""] ++
      bodyLines splats relative min_opacity)

/-- A nonempty string made of decimal digit characters. -/
def IsDigitStr (t : String) : Prop :=
  t ≠ "" ∧ ∀ c ∈ t.data, '0' ≤ c ∧ c ≤ '9'

/-- A fixed-point decimal numeral with exactly d digits after the
point: an optional minus sign, a nonempty digit string, a point, and
exactly d digit characters. -/
def FixedDecimal (d : ℕ) (t : String) : Prop :=
  ∃ (sgn ip : String) (fp : List Char),
    (sgn = "" ∨ sgn = "-") ∧ IsDigitStr ip ∧ fp.length = d ∧
      (∀ c ∈ fp, '0' ≤ c ∧ c ≤ '9') ∧ t = sgn ++ ip ++ "." ++ String.mk fp

/-! ### Helper lemmas -/

theorem clampR_nonneg (x : ℝ) : 0 ≤ max 0 (min 1 x) := le_max_left 0 _

theorem clampR_le_one (x : ℝ) : max 0 (min 1 x) ≤ 1 := max_le zero_le_one (min_le_left 1 x)

theorem sigmoid_nonneg (t : ℝ) : 0 ≤ 1 / (1 + Real.exp (-t)) := by positivity

theorem sigmoid_le_one (t : ℝ) : 1 / (1 + Real.exp (-t)) ≤ 1 := by
  rw [div_le_one (by positivity)]
  linarith [Real.exp_pos (-t)]

/-! ### Claim theorems -/

/-- C1: every splat produced by the decoder load_ply has each color
channel and the opacity inside the unit interval and a nonnegative
scale, whichever color tier applies and whether or not the optional
opacity and scale fields are present. -/
theorem load_ply_bounds (rows : List RawVertex) (s : GaussianSplat ℝ)
    (h : s ∈ load_ply rows) :
    0 ≤ s.r ∧ s.r ≤ 1 ∧ 0 ≤ s.g ∧ s.g ≤ 1 ∧ 0 ≤ s.b ∧ s.b ≤ 1 ∧
      0 ≤ s.opacity ∧ s.opacity ≤ 1 ∧ 0 ≤ s.scale := by
  rcases List.mem_map.mp h with ⟨v, -, rfl⟩
  obtain ⟨x, y, z, fdc, rgb, op, scls⟩ := v
  cases fdc <;> cases rgb <;> cases op <;> cases scls <;>
    simp only [decodeVertex] <;>
    refine ⟨clampR_nonneg _, clampR_le_one _, clampR_nonneg _, clampR_le_one _,
      clampR_nonneg _, clampR_le_one _, ?_, ?_, ?_⟩ <;>
    first
      | exact sigmoid_nonneg _
      | exact sigmoid_le_one _
      | exact zero_le_one
      | exact le_refl (1 : ℝ)
      | positivity

/-- C1 witness: the bounds instantiated at a file with a single vertex
carrying no optional fields. -/
theorem load_ply_bounds_witness :
    0 ≤ (decodeVertex ⟨0, 0, 0, none, none, none, none⟩).r ∧
      (decodeVertex ⟨0, 0, 0, none, none, none, none⟩).r ≤ 1 ∧
      0 ≤ (decodeVertex ⟨0, 0, 0, none, none, none, none⟩).g ∧
      (decodeVertex ⟨0, 0, 0, none, none, none, none⟩).g ≤ 1 ∧
      0 ≤ (decodeVertex ⟨0, 0, 0, none, none, none, none⟩).b ∧
      (decodeVertex ⟨0, 0, 0, none, none, none, none⟩).b ≤ 1 ∧
      0 ≤ (decodeVertex ⟨0, 0, 0, none, none, none, none⟩).opacity ∧
      (decodeVertex ⟨0, 0, 0, none, none, none, none⟩).opacity ≤ 1 ∧
      0 ≤ (decodeVertex ⟨0, 0, 0, none, none, none, none⟩).scale :=
  load_ply_bounds [⟨0, 0, 0, none, none, none, none⟩] _ (by simp [load_ply])

/-- C5: when the spherical-harmonic DC fields are present (whatever the
8-bit RGB fields hold, since the DC tier has priority), each decoded
channel is the clamp to the unit interval of 0.5 + DC * 0.28209479177387814. -/
theorem decode_dc_color (v : RawVertex) (d : ℝ × ℝ × ℝ) (h : v.f_dc = some d) :
    (decodeVertex v).r = max 0 (min 1 (0.5 + d.1 * 0.28209479177387814)) ∧
      (decodeVertex v).g = max 0 (min 1 (0.5 + d.2.1 * 0.28209479177387814)) ∧
      (decodeVertex v).b = max 0 (min 1 (0.5 + d.2.2 * 0.28209479177387814)) := by
  obtain ⟨x, y, z, fdc, rgb, op, scls⟩ := v
  subst h
  exact ⟨rfl, rfl, rfl⟩

/-- C5 witness: a DC value of 0 decodes to exactly 0.5, also when 8-bit
RGB fields are simultaneously present. -/
theorem decode_dc_color_witness :
    (decodeVertex ⟨0, 0, 0, some (0, 0, 0), some (7, 7, 7), none, none⟩).r = 0.5 := by
  have h := (decode_dc_color ⟨0, 0, 0, some (0, 0, 0), some (7, 7, 7), none, none⟩ (0, 0, 0) rfl).1
  rw [h, zero_mul, add_zero, min_eq_right (by norm_num : (0.5 : ℝ) ≤ 1),
    max_eq_right (by norm_num : (0 : ℝ) ≤ 0.5)]

/-- C6: the render scale is the clamp of scale * 50 to [0.1, 4.0]
(multiply first, then clamp), hence always lies in [0.1, 4.0]. -/
theorem particle_scale_spec (s : GaussianSplat ℚ) :
    particle_scale s = clampSpec (s.scale * 50) (1 / 10) 4 ∧
      1 / 10 ≤ particle_scale s ∧ particle_scale s ≤ 4 := by
  refine ⟨?_, le_max_left _ _, max_le (by norm_num) (min_le_left _ _)⟩
  rw [particle_scale, clampSpec]
  rcases lt_or_le (s.scale * 50) (1 / 10) with h | h
  · rw [if_pos h, min_eq_right (le_of_lt (h.trans_le (by norm_num))), max_eq_left (le_of_lt h)]
  · rw [if_neg (not_lt.mpr h)]
    rcases lt_or_le 4 (s.scale * 50) with h4 | h4
    · rw [if_pos h4, min_eq_left (le_of_lt h4), max_eq_right (by norm_num)]
    · rw [if_neg (not_lt.mpr h4), min_eq_right h4, max_eq_right h]

/-- C8: when the input length is at most the maximum count, the
selector returns the input unchanged under either policy. -/
theorem downsample_splats_identity (l : List (GaussianSplat ℚ)) (k : ℤ) (method : String)
    (rand : List ℕ) (h : (l.length : ℤ) ≤ k) :
    downsample_splats l k method rand = Except.ok l := by
  simp only [downsample_splats, if_pos h]

/-- C8 witness: a one-splat input with budget 5 under the random policy. -/
theorem downsample_splats_identity_witness :
    downsample_splats [splat0] 5 "random" [] = Except.ok [splat0] :=
  downsample_splats_identity [splat0] 5 "random" [] (by decide)

theorem minList_le_maxList (a : ℚ) (l : List ℚ) : minList a l ≤ maxList a l := by
  induction l with
  | nil => exact le_refl a
  | cons b t ih =>
    exact (min_le_left b (minList a t)).trans (le_max_left b (maxList a t))

theorem rangeOr1_pos (l : List (GaussianSplat ℚ)) (f : GaussianSplat ℚ → ℚ) (h : l ≠ []) :
    0 < rangeOr1 l f := by
  rcases l with - | ⟨s, t⟩
  · exact absurd rfl h
  · rw [rangeOr1]
    split_ifs with h0
    · exact one_pos
    · rw [boundsMax, boundsMin] at h0 ⊢
      exact lt_of_le_of_ne (sub_nonneg.mpr (minList_le_maxList (f s) (t.map f))) (Ne.symm h0)

/-- C2: on a nonempty input the normalizer keeps the length, transforms
every position axis to (value - center) * scale_factor with
scale_factor = target / max of the per-axis ranges (1 substituted for a
zero range, so the divisor is positive and no division by zero occurs),
multiplies every scale by the same factor, and passes color and opacity
through; the empty input passes through unchanged. -/
theorem normalize_splats_spec (splats : List (GaussianSplat ℚ)) (target_size : ℚ)
    (center : Bool) (h : splats ≠ []) :
    normalize_splats [] target_size center = [] ∧
      (normalize_splats splats target_size center).length = splats.length ∧
      0 < max (rangeOr1 splats (fun s => s.x))
          (max (rangeOr1 splats (fun s => s.y)) (rangeOr1 splats (fun s => s.z))) ∧
      ∀ i, i < splats.length →
        (normalize_splats splats target_size center)[i]? =
          some { x := ((splats.getD i splat0).x - center_axis splats (fun s => s.x) center) *
                    scale_factor splats target_size,
                 y := ((splats.getD i splat0).y - center_axis splats (fun s => s.y) center) *
                    scale_factor splats target_size,
                 z := ((splats.getD i splat0).z - center_axis splats (fun s => s.z) center) *
                    scale_factor splats target_size,
                 r := (splats.getD i splat0).r, g := (splats.getD i splat0).g,
                 b := (splats.getD i splat0).b, opacity := (splats.getD i splat0).opacity,
                 scale := (splats.getD i splat0).scale * scale_factor splats target_size } := by
  refine ⟨rfl, ?_, ?_, ?_⟩
  · rcases splats with - | ⟨s0, rest⟩
    · exact absurd rfl h
    · simp [normalize_splats]
  · exact lt_of_lt_of_le (rangeOr1_pos splats (fun s => s.x) h) (le_max_left _ _)
  · intro i hi
    rcases splats with - | ⟨s0, rest⟩
    · exact absurd rfl h
    · rw [normalize_splats]
      rw [List.getElem?_map, List.getElem?_eq_getElem hi, List.getD_eq_getElem _ _ hi]
      rfl

/-- C2 witness: two splats spanning the x axis with target 10 and
centering on; the first lands at x = 5 with its scale multiplied by 5. -/
theorem normalize_splats_spec_witness :
    (normalize_splats [⟨2, 0, 0, 1/4, 1/3, 1/2, 3/4, 1⟩, ⟨0, 0, 0, 0, 0, 0, 0, 0⟩] 10 true)[0]? =
      some ⟨5, 0, 0, 1/4, 1/3, 1/2, 3/4, 5⟩ := by
  have h := (normalize_splats_spec [⟨2, 0, 0, 1/4, 1/3, 1/2, 3/4, 1⟩, ⟨0, 0, 0, 0, 0, 0, 0, 0⟩]
    10 true (by decide)).2.2.2 0 (by decide)
  rw [h]
  with_unfolding_all rfl

theorem map_orderedInsert_left {α β : Type} (r : α → α → Prop) (s : β → β → Prop)
    [DecidableRel r] [DecidableRel s] (f : α → β) (x : α) (l : List α)
    (h : ∀ b ∈ l, r x b ↔ s (f x) (f b)) :
    (List.orderedInsert r x l).map f = List.orderedInsert s (f x) (l.map f) := by
  induction l with
  | nil => rfl
  | cons b t ih =>
    simp only [List.orderedInsert, List.map_cons]
    by_cases hxb : r x b
    · rw [if_pos hxb, if_pos ((h b (List.mem_cons_self b t)).mp hxb), List.map_cons, List.map_cons]
    · rw [if_neg hxb, if_neg fun hc => hxb ((h b (List.mem_cons_self b t)).mpr hc),
        List.map_cons, ih fun y hy => h y (List.mem_cons_of_mem b hy)]

theorem sorted_splats_eq_ranked (l : List (GaussianSplat ℚ)) :
    sorted_splats l = (rankedIndices l).map fun i => l.getD i splat0 := by
  induction l with
  | nil => rfl
  | cons a t ih =>
    have hstep : List.insertionSort (lexRank (a :: t)) (List.map Nat.succ (List.range t.length)) =
        List.map Nat.succ (rankedIndices t) := by
      refine (List.map_insertionSort (lexRank t) (lexRank (a :: t)) Nat.succ
        (List.range t.length) ?_).symm
      intro i hi j hj
      simp only [lexRank, Nat.succ_eq_add_one, List.getD_cons_succ, Nat.add_le_add_iff_right]
    have h1 : rankedIndices (a :: t) =
        List.orderedInsert (lexRank (a :: t)) 0 (List.map Nat.succ (rankedIndices t)) := by
      rw [rankedIndices, List.length_cons, List.range_succ_eq_map, List.insertionSort, hstep]
    have hcompat : ∀ b ∈ List.map Nat.succ (rankedIndices t),
        (lexRank (a :: t) 0 b ↔
          rge ((a :: t).getD 0 splat0) ((a :: t).getD b splat0)) := by
      intro b hb
      rcases List.mem_map.mp hb with ⟨j, -, rfl⟩
      simp only [lexRank, rge, Nat.succ_eq_add_one, List.getD_cons_succ, List.getD_cons_zero]
      constructor
      · rintro (hlt | ⟨heq, -⟩)
        · exact le_of_lt hlt
        · exact le_of_eq heq.symm
      · intro hle
        rcases eq_or_lt_of_le hle with heq | hlt
        · exact Or.inr ⟨heq.symm, Nat.zero_le _⟩
        · exact Or.inl hlt
    have lhs : sorted_splats (a :: t) = List.orderedInsert rge a (sorted_splats t) := rfl
    rw [lhs, ih, h1,
      map_orderedInsert_left (lexRank (a :: t)) rge (fun i => (a :: t).getD i splat0) 0 _ hcompat]
    simp only [List.map_map, List.getD_cons_zero]
    have hfun : ((fun i => (a :: t).getD i splat0) ∘ Nat.succ) = fun i => t.getD i splat0 :=
      funext fun i => List.getD_cons_succ
    rw [hfun]

/-- C3: with a positive maximum count smaller than the input length, the
opacity policy returns exactly the first k input positions in the
specification order lexRank (strictly higher opacity first, ties broken
by input position), read back verbatim from the input: rankedIndices is
sorted under lexRank, is a permutation of all input positions, and the
selector output is the image of its first k entries. -/
theorem downsample_splats_by_opacity (l : List (GaussianSplat ℚ)) (k : ℤ) (rand : List ℕ)
    (h1 : 0 < k) (h2 : k < (l.length : ℤ)) :
    List.Pairwise (lexRank l) (rankedIndices l) ∧
      (rankedIndices l).Perm (List.range l.length) ∧
      downsample_splats l k "opacity" rand =
        Except.ok (((rankedIndices l).take k.toNat).map fun i => l.getD i splat0) := by
  refine ⟨List.sorted_insertionSort (lexRank l) (List.range l.length),
    List.perm_insertionSort (lexRank l) (List.range l.length), ?_⟩
  simp only [downsample_splats, listSliceTo]
  rw [if_neg (not_le.mpr h2), if_pos trivial, if_pos h1.le, sorted_splats_eq_ranked,
    List.map_take]

/-- C3 witness: three splats with opacities 1/2, 9/10, 1/2 and budget 2
keep the 9/10 splat first and then the earlier of the two tied 1/2
splats. -/
theorem downsample_splats_by_opacity_witness :
    downsample_splats [⟨0, 0, 0, 0, 0, 0, 1/2, 0⟩, ⟨1, 1, 1, 1, 1, 1, 9/10, 1⟩,
        ⟨2, 2, 2, 2, 2, 2, 1/2, 2⟩] 2 "opacity" [] =
      Except.ok [⟨1, 1, 1, 1, 1, 1, 9/10, 1⟩, ⟨0, 0, 0, 0, 0, 0, 1/2, 0⟩] := by
  have h := (downsample_splats_by_opacity [⟨0, 0, 0, 0, 0, 0, 1/2, 0⟩,
    ⟨1, 1, 1, 1, 1, 1, 9/10, 1⟩, ⟨2, 2, 2, 2, 2, 2, 1/2, 2⟩] 2 [] (by decide) (by decide)).2.2
  rw [h]
  with_unfolding_all rfl

theorem filterMap_skip_eq_filter {α β : Type} (p : α → Prop) [DecidablePred p] (g : α → β)
    (l : List α) :
    (l.filterMap fun a => if p a then none else some (g a)) =
      (l.filter fun a => decide ¬ p a).map g := by
  induction l with
  | nil => rfl
  | cons a t ih =>
    by_cases hpa : p a
    · simp [List.filterMap_cons, hpa, ih]
    · simp [List.filterMap_cons, hpa, ih]

/-- C4: the emitter produces one command line for a splat exactly when
its opacity is at least the threshold: the generated text is the header
followed by the lines of precisely the splats with opacity at or above
min_opacity, in input order. -/
theorem generate_mcfunction_threshold (splats : List (GaussianSplat ℚ)) (relative : Bool)
    (min_opacity : ℚ) :
    generate_mcfunction splats relative min_opacity =
      String.intercalate "\n"
        (["# Generated by splat2mc", "# " ++ toString splats.length ++ " Gaussian splats", ""] ++
          (splats.filter fun s => decide (min_opacity ≤ s.opacity)).map (particleLine relative)) := by
  rw [generate_mcfunction]
  congr 2
  rw [bodyLines, filterMap_skip_eq_filter (fun s => s.opacity < min_opacity)
    (particleLine relative) splats]
  congr 1
  refine List.filter_congr fun s hs => ?_
  simp [not_lt]

/-- C10: the selector dispatches on the exact method string "opacity";
for an input longer than the budget, any other method value, including
the policy name "by-opacity", silently takes the random-sampling path
(here: indexing by the externally drawn index list), and no method
validation or rejection ever happens. -/
theorem downsample_splats_dispatch (l : List (GaussianSplat ℚ)) (k : ℤ) (method : String)
    (rand : List ℕ) (h1 : ¬ ((l.length : ℤ) ≤ k)) (h2 : method ≠ "opacity") :
    downsample_splats l k method rand =
      Except.ok (rand.map fun i => l.getD i splat0) := by
  simp only [downsample_splats, if_neg h1, if_neg h2]

/-- C10 witness: the policy name "by-opacity" is not recognized and goes
down the random path, returning the splats at the drawn indices. -/
theorem downsample_splats_dispatch_witness :
    downsample_splats [splat0, ⟨1, 1, 1, 1, 1, 1, 1, 1⟩] 1 "by-opacity" [1] =
      Except.ok [⟨1, 1, 1, 1, 1, 1, 1, 1⟩] := by
  have h := downsample_splats_dispatch [splat0, ⟨1, 1, 1, 1, 1, 1, 1, 1⟩] 1 "by-opacity" [1]
    (by decide) (by decide)
  rw [h]
  with_unfolding_all rfl

theorem digitChar_is_digit (k : ℕ) (h : k < 10) :
    '0' ≤ Nat.digitChar k ∧ Nat.digitChar k ≤ '9' := by
  interval_cases k <;> exact ⟨by decide, by decide⟩

theorem fracDigits_length (d : ℕ) : ∀ m, (fracDigits d m).length = d := by
  induction d with
  | zero => intro m; rfl
  | succ d ih => intro m; simp [fracDigits, ih]

theorem fracDigits_digits (d : ℕ) : ∀ m, ∀ c ∈ fracDigits d m, '0' ≤ c ∧ c ≤ '9' := by
  induction d with
  | zero =>
    intro m c hc
    cases hc
  | succ d ih =>
    intro m c hc
    rcases List.mem_append.mp hc with h1 | h2
    · exact ih (m / 10) c h1
    · obtain rfl := List.mem_singleton.mp h2
      exact digitChar_is_digit _ (Nat.mod_lt _ (by norm_num))

theorem natChars_digits (fuel : ℕ) : ∀ n, ∀ c ∈ natChars fuel n, '0' ≤ c ∧ c ≤ '9' := by
  induction fuel with
  | zero =>
    intro n c hc
    cases hc
  | succ fuel ih =>
    intro n c hc
    cases n with
    | zero => cases hc
    | succ m =>
      simp only [natChars] at hc
      rcases List.mem_append.mp hc with h1 | h2
      · exact ih _ c h1
      · obtain rfl := List.mem_singleton.mp h2
        exact digitChar_is_digit _ (Nat.mod_lt _ (by norm_num))

theorem natChars_ne_nil (fuel n : ℕ) (hf : fuel ≠ 0) (hn : n ≠ 0) : natChars fuel n ≠ [] := by
  cases fuel with
  | zero => exact absurd rfl hf
  | succ fuel =>
    cases n with
    | zero => exact absurd rfl hn
    | succ m => simp [natChars]

theorem intRender_digitStr (n : ℕ) : IsDigitStr (intRender n) := by
  rw [intRender]
  split_ifs with h
  · exact ⟨by decide, by decide⟩
  · constructor
    · intro hc
      have hdata : natChars n n = [] := by
        have := congrArg String.data hc
        simpa using this
      exact natChars_ne_nil n n h h hdata
    · intro c hc
      exact natChars_digits n n c hc

theorem fmtFixed_form (d : ℕ) (q : ℚ) : FixedDecimal d (fmtFixed d q) := by
  refine ⟨if q < 0 then "-" else "",
    intRender ((roundHalfEven (q * (10 : ℚ) ^ d)).natAbs / 10 ^ d),
    fracDigits d ((roundHalfEven (q * (10 : ℚ) ^ d)).natAbs % 10 ^ d), ?_,
    intRender_digitStr _, fracDigits_length d _, fracDigits_digits d _, rfl⟩
  split_ifs
  · exact Or.inr rfl
  · exact Or.inl rfl

/-- C7: every emitted command line is exactly the fixed particle token,
the parameter block holding the three clamped color channels and the
render scale, the position (tilde offsets in relative mode, plain world
coordinates in absolute mode), three zero velocity components, spread 1
and the force token; each color channel and coordinate is a fixed-point
numeral with exactly 3 decimal digits and the render scale one with
exactly 2; the text is a pure function of the splat, reproduced
byte-for-byte. -/
theorem particleLine_bytes (relative : Bool) (s : GaussianSplat ℚ) :
    particleLine relative s =
      "particle dust\x7bcolor:[" ++ fmtFixed 3 (clamp01 s.r) ++ "," ++ fmtFixed 3 (clamp01 s.g) ++
        "," ++ fmtFixed 3 (clamp01 s.b) ++ "],scale:" ++ fmtFixed 2 (particle_scale s) ++
        "\x7d " ++ posStr relative s ++ " 0 0 0 0 1 force" ∧
      FixedDecimal 3 (fmtFixed 3 (clamp01 s.r)) ∧ FixedDecimal 3 (fmtFixed 3 (clamp01 s.g)) ∧
      FixedDecimal 3 (fmtFixed 3 (clamp01 s.b)) ∧ FixedDecimal 2 (fmtFixed 2 (particle_scale s)) ∧
      (relative = true →
        posStr relative s = "~" ++ fmtFixed 3 s.x ++ " ~" ++ fmtFixed 3 s.y ++ " ~" ++
          fmtFixed 3 s.z) ∧
      (relative = false →
        posStr relative s = fmtFixed 3 s.x ++ " " ++ fmtFixed 3 s.y ++ " " ++ fmtFixed 3 s.z) ∧
      FixedDecimal 3 (fmtFixed 3 s.x) ∧ FixedDecimal 3 (fmtFixed 3 s.y) ∧
      FixedDecimal 3 (fmtFixed 3 s.z) := by
  refine ⟨rfl, fmtFixed_form _ _, fmtFixed_form _ _, fmtFixed_form _ _, fmtFixed_form _ _,
    ?_, ?_, fmtFixed_form _ _, fmtFixed_form _ _, fmtFixed_form _ _⟩
  · intro h
    subst h
    rfl
  · intro h
    subst h
    rfl

/-- C7 witness: the fully evaluated command line of the zero splat in
relative mode. -/
theorem particleLine_bytes_witness :
    posStr true splat0 = "~0.000 ~0.000 ~0.000" ∧
      particleLine true splat0 =
        "particle dust\x7bcolor:[0.000,0.000,0.000],scale:0.10\x7d ~0.000 ~0.000 ~0.000 0 0 0 0 1 force" := by
  have h := (particleLine_bytes true splat0).2.2.2.2.2.1 rfl
  constructor
  · rw [h]
    with_unfolding_all rfl
  · with_unfolding_all rfl
